import Mathlib

/-!
Verification of the action-dispatch engine of the ngxs state-management
library, against its natural-language specification.  The repository ships
only the test suite for this subsystem (`packages/store/tests/action.spec.ts`);
the dispatcher itself is not part of the provided sources, so every engine
definition below is modelled from the specification (section 2-5 and 7 of
`spec.md`), with the test file used as a behavioural cross-check.
-/

/-- Modelled from the spec: error values carried by handler failures
("Handler execution error").  The dispatcher never inspects them, so a
string stands for an arbitrary error value. -/
abbrev Err := String

/-- Modelled from the spec: "Lifecycle phase: one of DISPATCHED, SUCCESSFUL,
ERRORED, CANCELED, COMPLETED describing an action occurrence's progress". -/
inductive Phase
  | dispatched
  | successful
  | errored
  | canceled
  | completed
deriving DecidableEq, Repr

/-- Modelled from the spec: "Action: an identifier (a stable type tag,
string-valued) plus arbitrary payload fields.  Multiple distinct action
values may share a type tag (e.g. literal objects vs. class instances)".
The `inst` form stands for a class instance (its payload distinguishes
distinct instances); `literal` for an object literal. -/
inductive ActionValue
  | inst (tag : String) (payload : Nat)
  | literal (tag : String)
deriving DecidableEq, Repr

/-- Modelled from the spec: "an explicit type-tag extraction function applied
uniformly before any lookup/comparison" (design note 9.3). -/
def getActionTypeFromInstance : ActionValue → String
  | .inst t _ => t
  | .literal t => t

/-- Modelled from the spec: the result record carried by the COMPLETED
lifecycle event, `{successful: bool, canceled: bool, error: value-or-absent}`. -/
structure ActionResult where
  successful : Bool
  canceled : Bool
  error : Option Err
deriving DecidableEq, Repr

/-- Result record of a successful occurrence. -/
def ActionResult.ofSuccess : ActionResult := ⟨true, false, none⟩

/-- Result record of an errored occurrence. -/
def ActionResult.ofError (e : Err) : ActionResult := ⟨false, false, some e⟩

/-- Result record of a canceled occurrence:
"canceled: true, successful: false, error: absent" (spec section 7). -/
def ActionResult.ofCanceled : ActionResult := ⟨false, true, none⟩

/-- Modelled from the spec: "Lifecycle Event: (action, phase, optional
result)"; the occurrence id identifies the dispatch occurrence the event
belongs to (spec: "Immutable value published once per phase per action
occurrence"). -/
structure LifecycleEvent where
  occId : Nat
  action : ActionValue
  phase : Phase
  result : Option ActionResult
deriving DecidableEq, Repr

/-- Builds a lifecycle event. -/
def mkEv (i : Nat) (a : ActionValue) (ph : Phase) (r : Option ActionResult) :
    LifecycleEvent := ⟨i, a, ph, r⟩

/-- Modelled from the spec: return-type polymorphism of handlers, "a tagged
variant over immediate, future, stream" (design note 9.2).  A promise carries
the tick at which it settles, its error (if it rejects) and the artifact it
resolves with; a stream carries its completion tick, its error and the
artifacts it emitted along the way. -/
inductive HandlerReturnShape
  | plain
  | promiseOf (resolveAt : Nat) (err : Option Err) (inner : Option HandlerReturnShape)
  | streamOf (completeAt : Nat) (err : Option Err) (emitted : List HandlerReturnShape)

/-- Modelled from the spec: normalization of a handler return value into the
single internal asynchronous primitive — the tick at which it settles.  A
plain value (or nothing) is already complete; a promise settles when it
resolves, a stream when it completes — in both cases shallowly, ignoring
whatever artifacts sit inside. -/
def normalizeSettleTime : HandlerReturnShape → Nat
  | .plain => 0
  | .promiseOf t _ _ => t
  | .streamOf t _ _ => t

/-- Modelled from the spec: the error (if any) with which the normalized
asynchronous primitive of a handler return value settles. -/
def normalizeErr : HandlerReturnShape → Option Err
  | .plain => none
  | .promiseOf _ e _ => e
  | .streamOf _ e _ => e

/-- Modelled from the spec: "Handler Registration: (container reference,
action-type-tag or set of tags, handler function, options{cancelUncompleted:
bool})".  The handler function is represented by the shape of its return
value; the container reference plays no role in the dispatch algorithm. -/
structure Registration where
  tags : List String
  shape : HandlerReturnShape
  cancelUncompleted : Bool

/-- Modelled from the spec: one pending handler subscription of an in-flight
action record — which registration it came from, how many ticks remain until
its normalized asynchronous primitive settles, and the error it settles with
(if any). -/
structure HandlerSub where
  regIdx : Nat
  remaining : Nat
  err : Option Err
deriving DecidableEq, Repr

/-- Modelled from the spec: "In-Flight Action Record: (action, generated
unique key derived from the action's identity/type, list of pending handler
subscriptions, aggregate status)". -/
structure InFlight where
  id : Nat
  action : ActionValue
  subs : List HandlerSub
deriving Repr

/-- Modelled from the spec: the dispatcher state — the next fresh occurrence
id, the in-flight action records exclusively owned by the dispatcher, and the
sequence of lifecycle events published so far on the Event Bus. -/
structure EngineState where
  nextOcc : Nat
  inFlight : List InFlight
  log : List LifecycleEvent
deriving Repr

/-- Initial dispatcher state. -/
def initState : EngineState := ⟨0, [], []⟩

/-- The settlement events of an occurrence: ERRORED then COMPLETED with the
error record when it settles with an error, SUCCESSFUL then COMPLETED with
the success record otherwise (spec step 6). -/
def settledPair (i : Nat) (a : ActionValue) : Option Err → List LifecycleEvent
  | some e => [mkEv i a .errored none, mkEv i a .completed (some (ActionResult.ofError e))]
  | none => [mkEv i a .successful none, mkEv i a .completed (some ActionResult.ofSuccess)]

/-- The settlement events of a canceled occurrence: CANCELED then COMPLETED
with the canceled record (spec steps 3 and 6). -/
def canceledPair (i : Nat) (a : ActionValue) : List LifecycleEvent :=
  [mkEv i a .canceled none, mkEv i a .completed (some ActionResult.ofCanceled)]

/-- Outcome of examining the pending handler subscriptions of an in-flight
record: settled with an error, settled successfully, or still pending with
the given remaining subscriptions. -/
inductive SettleStep
  | errored (e : Err)
  | successful
  | still (subs : List HandlerSub)

/-- Modelled from the spec (step 5): "Track, per action occurrence, the
still-pending handler invocations.  As each settles: on error, immediately
mark the whole occurrence ERRORED (first error wins — do not wait for
siblings); when every handler invocation for the occurrence has settled
without any error, mark SUCCESSFUL." -/
def settleRecord (subs : List HandlerSub) : SettleStep :=
  let done := subs.filter (fun sub => decide (sub.remaining = 0))
  let still := subs.filter (fun sub => decide (sub.remaining ≠ 0))
  match done.filterMap HandlerSub.err with
  | e :: _ => .errored e
  | [] => if still.isEmpty then .successful else .still still

/-- Applies the settlement examination to one in-flight record: a settled
record publishes its settlement phase and COMPLETED; a still-pending record
rejoins the in-flight list (spec steps 5-6). -/
def applySettle (s : EngineState) (rec : InFlight) : EngineState :=
  match settleRecord rec.subs with
  | .errored e => { s with log := s.log ++ settledPair rec.id rec.action (some e) }
  | .successful => { s with log := s.log ++ settledPair rec.id rec.action none }
  | .still subs2 => { s with inFlight := s.inFlight ++ [⟨rec.id, rec.action, subs2⟩] }

/-- One tick of elapsed asynchronous time on a pending handler subscription. -/
def decSub (sub : HandlerSub) : HandlerSub := ⟨sub.regIdx, sub.remaining - 1, sub.err⟩

/-- One tick of elapsed asynchronous time on an in-flight record. -/
def decRec (r : InFlight) : InFlight := ⟨r.id, r.action, r.subs.map decSub⟩

/-- Modelled from the spec (section 5): asynchronous completions arrive at
suspension points; one tick advances every pending handler subscription and
settles, in record order, every occurrence whose handlers have all settled
(or which received its first error). -/
def tickStep (s : EngineState) : EngineState :=
  (s.inFlight.map decRec).foldl applySettle ⟨s.nextOcc, [], s.log⟩

/-- Registry resolution starting at registration index `i`: the registrations
whose tag set contains the looked-up tag, in registration order, paired with
their index (spec 4.1: "resolve(actionTypeTag) -> ordered sequence of
registrations; resolution order is registration order"). -/
def matchedFrom (i : Nat) (regs : List Registration) (tag : String) :
    List (Nat × Registration) :=
  match regs with
  | [] => []
  | r :: rs =>
    if tag ∈ r.tags then (i, r) :: matchedFrom (i + 1) rs tag
    else matchedFrom (i + 1) rs tag

/-- Registry resolution (spec 4.1). -/
def matchedRegs (regs : List Registration) (tag : String) : List (Nat × Registration) :=
  matchedFrom 0 regs tag

/-- Modelled from the spec (step 3): the registration indices among the
matched registrations whose options request `cancelUncompleted`. -/
def cancelTargets (matched : List (Nat × Registration)) : List Nat :=
  (matched.filter (fun p => p.2.cancelUncompleted)).map Prod.fst

/-- Whether an in-flight record is hit by the cancellation pass: it is a
prior still-pending invocation for the same (registration, action-type)
pair as one of the cancellation targets (spec step 3). -/
def recHit (tag : String) (targets : List Nat) (r : InFlight) : Bool :=
  decide (getActionTypeFromInstance r.action = tag) &&
    r.subs.any (fun sub => decide (sub.regIdx ∈ targets))

/-- Modelled from the spec (step 3): "if a prior still-pending invocation
exists for that same (registration, action-type) pair, cancel it now
(unsubscribe its underlying asynchronous work; mark its contribution as
CANCELED without waiting for it)" — the hit records leave the in-flight list
and publish CANCELED then COMPLETED with the canceled record. -/
def cancelPass (tag : String) (targets : List Nat) (s : EngineState) : EngineState :=
  let hit := s.inFlight.filter (recHit tag targets)
  let kept := s.inFlight.filter (fun r => !(recHit tag targets r))
  ⟨s.nextOcc, kept, s.log ++ hit.flatMap (fun r => canceledPair r.id r.action)⟩

/-- Modelled from the spec (step 4): invoking each matched handler yields one
pending subscription per matched registration, normalized to the internal
asynchronous primitive. -/
def startSubs (matched : List (Nat × Registration)) : List HandlerSub :=
  matched.map (fun p => ⟨p.1, normalizeSettleTime p.2.shape, normalizeErr p.2.shape⟩)

/-- Modelled from the spec (steps 1-7, single action): publish DISPATCHED,
resolve the handlers, run the cancellation pass for `cancelUncompleted`
registrations, invoke the matched handlers, and settle whatever is already
complete (dispatching with no handlers is an immediate successful no-op,
still publishing SUCCESSFUL then COMPLETED).  Returns the new state and the
occurrence id. -/
def dispatchOne (regs : List Registration) (a : ActionValue) (s : EngineState) :
    EngineState × Nat :=
  let i := s.nextOcc
  let tag := getActionTypeFromInstance a
  let s1 : EngineState := ⟨i + 1, s.inFlight, s.log ++ [mkEv i a .dispatched none]⟩
  let matched := matchedRegs regs tag
  let s2 := cancelPass tag (cancelTargets matched) s1
  (applySettle s2 ⟨i, a, startSubs matched⟩, i)

/-- Modelled from the spec: "Batch dispatch (a sequence of actions in one
call) processes each action independently through the same pipeline".
Returns the new state and the occurrence ids of the batch. -/
def dispatchBatch (regs : List Registration) (batch : List ActionValue)
    (s : EngineState) : EngineState × List Nat :=
  batch.foldl (fun acc a =>
    let r := dispatchOne regs a acc.1
    (r.1, acc.2 ++ [r.2])) (s, [])

/-- A step of a dispatcher run: a dispatch call (of a batch of one or more
actions) or a tick of asynchronous time. -/
inductive Cmd
  | dispatch (batch : List ActionValue)
  | tick

/-- Executes one command. -/
def stepCmd (regs : List Registration) (s : EngineState) : Cmd → EngineState
  | .dispatch b => (dispatchBatch regs b s).1
  | .tick => tickStep s

/-- Executes a whole dispatcher run from the initial state. -/
def runProg (regs : List Registration) (prog : List Cmd) : EngineState :=
  prog.foldl (stepCmd regs) initState

/-- The events published for occurrence `i`, in publication order. -/
def occEvents (log : List LifecycleEvent) (i : Nat) : List LifecycleEvent :=
  log.filter (fun ev => decide (ev.occId = i))

/-- The phases published for occurrence `i`, in publication order. -/
def occPhases (log : List LifecycleEvent) (i : Nat) : List Phase :=
  (occEvents log i).map LifecycleEvent.phase

/-- Settlement of the caller-facing future returned by `dispatch`. -/
inductive DispatchOutcome
  | resolved
  | rejected (e : Err)
  | pending
deriving DecidableEq, Repr

/-- Whether the caller-facing future has settled. -/
def DispatchOutcome.isSettled : DispatchOutcome → Bool
  | .pending => false
  | _ => true

/-- Modelled from the spec (step 7): the caller-facing future of a single
occurrence — "SUCCESSFUL/COMPLETED resolves with no value; ERRORED rejects
with the originating error; CANCELED resolves with no value".  The COMPLETED
event's result record carries the originating error exactly in the ERRORED
case. -/
def occOutcome (log : List LifecycleEvent) (i : Nat) : DispatchOutcome :=
  match ((occEvents log i).filter (fun ev => decide (ev.phase = Phase.completed))).head? with
  | none => .pending
  | some ev =>
    match ev.result with
    | some r =>
      match r.error with
      | some e => .rejected e
      | none => .resolved
    | none => .resolved

/-- The errors with which occurrences of the batch have settled, in
publication order (the first one is the one the batch future rejects with). -/
def batchErrs (log : List LifecycleEvent) (ids : List Nat) : List Err :=
  log.filterMap (fun ev =>
    if ev.occId ∈ ids ∧ ev.phase = Phase.completed then ev.result.bind ActionResult.error
    else none)

/-- Modelled from the spec: the caller-facing future of a batch dispatch,
"settles only once all actions in the batch have completed (success) or as
soon as any one errors (failure), mirroring a joined/aggregate wait". -/
def batchOutcome (log : List LifecycleEvent) (ids : List Nat) : DispatchOutcome :=
  match (batchErrs log ids).head? with
  | some e => .rejected e
  | none =>
    if ids.all (fun i => (occOutcome log i).isSettled) then .resolved else .pending

/-- Modelled from the spec (4.5): the selector/filter helpers over the Event
Bus, filtering by matching action-type tag(s) and by phase; "matching an
action literal vs. an action-type tag must behave identically (tag equality,
not object identity)". -/
def ofActionWhere (allowed : List ActionValue) (phases : List Phase)
    (log : List LifecycleEvent) : List LifecycleEvent :=
  log.filter (fun ev =>
    allowed.any (fun a =>
      decide (getActionTypeFromInstance a = getActionTypeFromInstance ev.action)) &&
    decide (ev.phase ∈ phases))

/-- Modelled from the spec (4.2): the Event Bus, "a multicast stream of
lifecycle events" — the subscribers in subscription order, and the
chronological sequence of (subscriber, event) deliveries made so far. -/
structure EventBus where
  subs : List Nat
  deliveries : List (Nat × LifecycleEvent)

/-- Modelled from the spec (4.2): `subscribe` appends a subscriber. -/
def EventBus.subscribe (b : EventBus) (sid : Nat) : EventBus :=
  ⟨b.subs ++ [sid], b.deliveries⟩

/-- Modelled from the spec (4.2): "publish(event); delivery is synchronous
multicast in subscription order to whoever is currently subscribed at
publish time". -/
def EventBus.publish (b : EventBus) (ev : LifecycleEvent) : EventBus :=
  ⟨b.subs, b.deliveries ++ b.subs.map (fun sid => (sid, ev))⟩

example :
    (dispatchOne [] (.inst "A" 0) initState).1.log =
      [mkEv 0 (.inst "A" 0) .dispatched none, mkEv 0 (.inst "A" 0) .successful none,
       mkEv 0 (.inst "A" 0) .completed (some ActionResult.ofSuccess)] := by
  decide

/-- The tag-level signature of a lifecycle event: everything about it except
the payload identity of the action value it carries. -/
def evSig (ev : LifecycleEvent) : Nat × String × Phase × Option ActionResult :=
  (ev.occId, getActionTypeFromInstance ev.action, ev.phase, ev.result)

/-- Erases the nested artifacts of a handler return shape: the artifact a
promise resolves with and the artifacts a stream emitted along the way. -/
def shallowShape : HandlerReturnShape → HandlerReturnShape
  | .plain => .plain
  | .promiseOf t e _ => .promiseOf t e none
  | .streamOf t e _ => .streamOf t e []

/-- Erases the nested artifacts of a registration's handler return shape. -/
def shallowReg (r : Registration) : Registration :=
  ⟨r.tags, shallowShape r.shape, r.cancelUncompleted⟩

/-- The consecutive occurrence ids allocated to a batch of `n` actions when
the next fresh id is `a`. -/
def idsFrom : Nat → Nat → List Nat
  | _, 0 => []
  | a, n + 1 => a :: idsFrom (a + 1) n

/-! ## Projection lemmas -/

theorem occEvents_append (l1 l2 : List LifecycleEvent) (i : Nat) :
    occEvents (l1 ++ l2) i = occEvents l1 i ++ occEvents l2 i :=
  List.filter_append ..

theorem occEvents_single_self (i : Nat) (a : ActionValue) (ph : Phase)
    (r : Option ActionResult) : occEvents [mkEv i a ph r] i = [mkEv i a ph r] := by
  simp [occEvents, mkEv]

theorem occEvents_single_ne (i j : Nat) (a : ActionValue) (ph : Phase)
    (r : Option ActionResult) (h : j ≠ i) : occEvents [mkEv j a ph r] i = [] := by
  simp [occEvents, mkEv, h]

theorem occEvents_settledPair_self (i : Nat) (a : ActionValue) (oe : Option Err) :
    occEvents (settledPair i a oe) i = settledPair i a oe := by
  cases oe <;> simp [settledPair, occEvents, mkEv]

theorem occEvents_settledPair_ne (i j : Nat) (a : ActionValue) (oe : Option Err)
    (h : j ≠ i) : occEvents (settledPair j a oe) i = [] := by
  cases oe <;> simp [settledPair, occEvents, mkEv, h]

theorem occEvents_canceledPair_self (i : Nat) (a : ActionValue) :
    occEvents (canceledPair i a) i = canceledPair i a := by
  simp [canceledPair, occEvents, mkEv]

theorem occEvents_canceledPair_ne (i j : Nat) (a : ActionValue) (h : j ≠ i) :
    occEvents (canceledPair j a) i = [] := by
  simp [canceledPair, occEvents, mkEv, h]

theorem occEvents_flatMapCanceled_notMem (cs : List InFlight) (i : Nat)
    (h : i ∉ cs.map InFlight.id) :
    occEvents (cs.flatMap (fun r => canceledPair r.id r.action)) i = [] := by
  induction cs with
  | nil => rfl
  | cons c cs ih =>
    rw [List.flatMap_cons, occEvents_append]
    have hc : c.id ≠ i := by
      intro he
      exact h (by simp [he])
    rw [occEvents_canceledPair_ne _ _ _ hc, List.nil_append]
    exact ih (fun hm => h (by simp [hm]))

theorem occEvents_flatMapCanceled_mem (cs : List InFlight) (c : InFlight)
    (hc : c ∈ cs) (hnd : (cs.map InFlight.id).Nodup) :
    occEvents (cs.flatMap (fun r => canceledPair r.id r.action)) c.id =
      canceledPair c.id c.action := by
  induction cs with
  | nil => cases hc
  | cons d ds ih =>
    rw [List.flatMap_cons, occEvents_append]
    rw [List.map_cons, List.nodup_cons] at hnd
    rcases List.mem_cons.mp hc with he | hm
    · subst he
      rw [occEvents_canceledPair_self,
        occEvents_flatMapCanceled_notMem _ _ hnd.1, List.append_nil]
    · have hdc : d.id ≠ c.id := by
        intro he
        exact hnd.1 (he ▸ List.mem_map_of_mem InFlight.id hm)
      rw [occEvents_canceledPair_ne _ _ _ hdc, List.nil_append]
      exact ih hm hnd.2

/-! ## The lifecycle invariant -/

/-- The full published event sequence of a settled occurrence: DISPATCHED,
then exactly one of SUCCESSFUL, ERRORED, CANCELED, then COMPLETED carrying
the matching result record. -/
def settledEvents (i : Nat) (a : ActionValue) (evs : List LifecycleEvent) : Prop :=
  evs = mkEv i a .dispatched none :: settledPair i a none
  ∨ (∃ e, evs = mkEv i a .dispatched none :: settledPair i a (some e))
  ∨ evs = mkEv i a .dispatched none :: canceledPair i a

/-- The dispatcher/Event-Bus invariant, phrased over a published log, the
next fresh occurrence id and the conceptually open in-flight records: open
occurrences have published exactly their DISPATCHED event, every other
already-allocated occurrence has published a full settled sequence, and
unallocated ids have published nothing. -/
structure LogInv (log : List LifecycleEvent) (n : Nat) (opens : List InFlight) : Prop where
  nodup : (opens.map InFlight.id).Nodup
  openLt : ∀ r ∈ opens, r.id < n
  openProj : ∀ r ∈ opens, occEvents log r.id = [mkEv r.id r.action .dispatched none]
  closedProj : ∀ i, i < n → i ∉ opens.map InFlight.id →
    ∃ a, settledEvents i a (occEvents log i)
  freshProj : ∀ i, n ≤ i → occEvents log i = []

/-- The dispatcher invariant of an engine state. -/
def EngineInv (s : EngineState) : Prop := LogInv s.log s.nextOcc s.inFlight

theorem LogInv.congr_opens (log : List LifecycleEvent) (n : Nat)
    (o1 o2 : List InFlight)
    (hm : ∀ r ∈ o2, ∃ q ∈ o1, q.id = r.id ∧ q.action = r.action)
    (hids : o2.map InFlight.id = o1.map InFlight.id)
    (h : LogInv log n o1) : LogInv log n o2 := by
  refine ⟨?_, ?_, ?_, ?_, h.freshProj⟩
  · rw [hids]; exact h.nodup
  · intro r hr
    obtain ⟨q, hq, hqi, _⟩ := hm r hr
    exact hqi ▸ h.openLt q hq
  · intro r hr
    obtain ⟨q, hq, hqi, hqa⟩ := hm r hr
    have := h.openProj q hq
    rw [hqi, hqa] at this
    exact this
  · intro i hi hni
    rw [hids] at hni
    exact h.closedProj i hi hni

theorem cancelPass_logInv (tag : String) (targets : List Nat) (s : EngineState)
    (extra : List InFlight)
    (h : LogInv s.log s.nextOcc (s.inFlight ++ extra)) :
    LogInv (cancelPass tag targets s).log s.nextOcc
      ((cancelPass tag targets s).inFlight ++ extra) := by
  have hnd := h.nodup
  rw [List.map_append, List.nodup_append] at hnd
  obtain ⟨hA, hE, hAE⟩ := hnd
  show LogInv
    (s.log ++ (s.inFlight.filter (recHit tag targets)).flatMap
      (fun r => canceledPair r.id r.action)) s.nextOcc
    (s.inFlight.filter (fun r => !(recHit tag targets r)) ++ extra)
  set hit := s.inFlight.filter (recHit tag targets) with hhit
  set kept := s.inFlight.filter (fun r => !(recHit tag targets r)) with hkept
  have hitSub : ∀ r ∈ hit, r ∈ s.inFlight := fun r hr => (List.mem_filter.mp hr).1
  have keptSub : ∀ r ∈ kept, r ∈ s.inFlight := fun r hr => (List.mem_filter.mp hr).1
  have hitNodup : (hit.map InFlight.id).Nodup :=
    hA.sublist (List.Sublist.map _ (List.filter_sublist _))
  have hitLt : ∀ r ∈ hit, r.id < s.nextOcc := fun r hr =>
    h.openLt r (List.mem_append_left _ (hitSub r hr))
  have notInHit : ∀ j, j ∈ (kept ++ extra).map InFlight.id →
      j ∉ hit.map InFlight.id := by
    intro j hj hjh
    obtain ⟨c, hc, hcid⟩ := List.mem_map.mp hjh
    rw [List.map_append, List.mem_append] at hj
    rcases hj with hjk | hje
    · obtain ⟨k, hk, hkid⟩ := List.mem_map.mp hjk
      have : k = c := List.inj_on_of_nodup_map hA (keptSub k hk) (hitSub c hc)
        (by rw [hkid, hcid])
      subst this
      have h1 : recHit tag targets k = true := (List.mem_filter.mp hc).2
      have h2 : (!(recHit tag targets k)) = true := (List.mem_filter.mp hk).2
      rw [h1] at h2
      exact Bool.false_ne_true h2
    · exact hAE (hcid ▸ List.mem_map_of_mem InFlight.id (hitSub c hc)) hje
  have projSame : ∀ j, j ∉ hit.map InFlight.id →
      occEvents (s.log ++ hit.flatMap (fun r => canceledPair r.id r.action)) j =
        occEvents s.log j := by
    intro j hj
    rw [occEvents_append, occEvents_flatMapCanceled_notMem _ _ hj, List.append_nil]
  refine ⟨?_, ?_, ?_, ?_, ?_⟩
  · exact h.nodup.sublist (List.Sublist.map _
      (List.Sublist.append (List.filter_sublist _) (List.Sublist.refl _)))
  · intro r hr
    rw [List.mem_append] at hr
    rcases hr with hr | hr
    · exact h.openLt r (List.mem_append_left _ (keptSub r hr))
    · exact h.openLt r (List.mem_append_right _ hr)
  · intro r hr
    have hne : r.id ∉ hit.map InFlight.id :=
      notInHit r.id (List.mem_map_of_mem InFlight.id hr)
    rw [projSame r.id hne]
    rw [List.mem_append] at hr
    rcases hr with hr | hr
    · exact h.openProj r (List.mem_append_left _ (keptSub r hr))
    · exact h.openProj r (List.mem_append_right _ hr)
  · intro i hi hni
    by_cases hm : i ∈ hit.map InFlight.id
    · obtain ⟨c, hc, hcid⟩ := List.mem_map.mp hm
      subst hcid
      have hproj : occEvents s.log c.id = [mkEv c.id c.action .dispatched none] :=
        h.openProj c (List.mem_append_left _ (hitSub c hc))
      refine ⟨c.action, ?_⟩
      rw [occEvents_append, hproj, occEvents_flatMapCanceled_mem hit c hc hitNodup]
      exact Or.inr (Or.inr rfl)
    · rw [projSame i hm]
      refine h.closedProj i hi ?_
      rw [List.map_append, List.mem_append]
      intro hcon
      rcases hcon with hcon | hcon
      · obtain ⟨r, hr, hrid⟩ := List.mem_map.mp hcon
        by_cases hrh : recHit tag targets r = true
        · exact hm (hrid ▸ List.mem_map_of_mem InFlight.id (List.mem_filter.mpr ⟨hr, hrh⟩))
        · refine hni ?_
          rw [List.map_append, List.mem_append]
          exact Or.inl (hrid ▸ List.mem_map_of_mem InFlight.id
            (List.mem_filter.mpr ⟨hr, by simp [hrh]⟩))
      · exact hni (by rw [List.map_append, List.mem_append]; exact Or.inr hcon)
  · intro i hi
    have hne : i ∉ hit.map InFlight.id := by
      intro hcon
      obtain ⟨c, hc, hcid⟩ := List.mem_map.mp hcon
      exact absurd (hcid ▸ hitLt c hc) (Nat.not_lt.mpr hi)
    rw [projSame i hne]
    exact h.freshProj i hi

theorem applySettle_nextOcc (s : EngineState) (r : InFlight) :
    (applySettle s r).nextOcc = s.nextOcc := by
  unfold applySettle
  cases settleRecord r.subs <;> rfl

theorem applySettle_logInv (s : EngineState) (r : InFlight) (rest : List InFlight)
    (h : LogInv s.log s.nextOcc (s.inFlight ++ r :: rest)) :
    LogInv (applySettle s r).log (applySettle s r).nextOcc
      ((applySettle s r).inFlight ++ rest) := by
  have hrmem : r ∈ s.inFlight ++ r :: rest :=
    List.mem_append_right _ (List.mem_cons_self r rest)
  have hrlt : r.id < s.nextOcc := h.openLt r hrmem
  have hrproj : occEvents s.log r.id = [mkEv r.id r.action .dispatched none] :=
    h.openProj r hrmem
  have hnd := h.nodup
  rw [List.map_append, List.map_cons, List.nodup_append] at hnd
  obtain ⟨hA, hB, hAB⟩ := hnd
  have hrA : r.id ∉ s.inFlight.map InFlight.id := fun hc => hAB hc (List.mem_cons_self _ _)
  have hrB : r.id ∉ rest.map InFlight.id := (List.nodup_cons.mp hB).1
  have hother : ∀ q, q ∈ s.inFlight ++ rest → q.id ≠ r.id := by
    intro q hq he
    rw [List.mem_append] at hq
    rcases hq with hq | hq
    · exact hrA (he ▸ List.mem_map_of_mem InFlight.id hq)
    · exact hrB (he ▸ List.mem_map_of_mem InFlight.id hq)
  have hmemUp : ∀ q, q ∈ s.inFlight ++ rest → q ∈ s.inFlight ++ r :: rest := by
    intro q hq
    rw [List.mem_append] at hq
    rcases hq with hq | hq
    · exact List.mem_append_left _ hq
    · exact List.mem_append_right _ (List.mem_cons_of_mem _ hq)
  have hclose : ∀ (oe : Option Err),
      settledEvents r.id r.action (mkEv r.id r.action .dispatched none :: settledPair r.id r.action oe) →
      LogInv (s.log ++ settledPair r.id r.action oe) s.nextOcc (s.inFlight ++ rest) := by
    intro oe hsh
    refine ⟨?_, ?_, ?_, ?_, ?_⟩
    · exact h.nodup.sublist (List.Sublist.map _
        (List.Sublist.append (List.Sublist.refl _) (List.sublist_cons_self _ _)))
    · intro q hq
      exact h.openLt q (hmemUp q hq)
    · intro q hq
      rw [occEvents_append, occEvents_settledPair_ne _ _ _ _ (Ne.symm (hother q hq)),
        List.append_nil]
      exact h.openProj q (hmemUp q hq)
    · intro i hi hni
      by_cases hir : i = r.id
      · subst hir
        refine ⟨r.action, ?_⟩
        rw [occEvents_append, hrproj, occEvents_settledPair_self]
        exact hsh
      · rw [occEvents_append, occEvents_settledPair_ne _ _ _ _ (Ne.symm hir),
          List.append_nil]
        refine h.closedProj i hi ?_
        intro hc
        rw [List.map_append, List.map_cons] at hc
        rcases List.mem_append.mp hc with hc | hc
        · exact hni (by rw [List.map_append]; exact List.mem_append_left _ hc)
        · rcases List.mem_cons.mp hc with hc | hc
          · exact hir hc
          · exact hni (by rw [List.map_append]; exact List.mem_append_right _ hc)
    · intro i hi
      have : r.id ≠ i := fun he => absurd (he ▸ hrlt) (Nat.not_lt.mpr hi)
      rw [occEvents_append, occEvents_settledPair_ne _ _ _ _ this, List.append_nil]
      exact h.freshProj i hi
  unfold applySettle
  cases hsr : settleRecord r.subs with
  | errored e =>
    exact hclose (some e) (Or.inr (Or.inl ⟨e, rfl⟩))
  | successful =>
    exact hclose none (Or.inl rfl)
  | still subs2 =>
    show LogInv s.log s.nextOcc ((s.inFlight ++ [⟨r.id, r.action, subs2⟩]) ++ rest)
    refine LogInv.congr_opens _ _ (s.inFlight ++ r :: rest) _ ?_ ?_ h
    · intro q hq
      rw [List.append_assoc, List.singleton_append, List.mem_append] at hq
      rcases hq with hq | hq
      · exact ⟨q, List.mem_append_left _ hq, rfl, rfl⟩
      · rcases List.mem_cons.mp hq with hq | hq
        · exact ⟨r, hrmem, by rw [hq], by rw [hq]⟩
        · exact ⟨q, List.mem_append_right _ (List.mem_cons_of_mem _ hq), rfl, rfl⟩
    · simp

theorem foldSettle_logInv (recs : List InFlight) : ∀ (s : EngineState),
    LogInv s.log s.nextOcc (s.inFlight ++ recs) →
    EngineInv (recs.foldl applySettle s) := by
  induction recs with
  | nil =>
    intro s h
    rw [List.foldl_nil]
    exact LogInv.congr_opens _ _ (s.inFlight ++ []) _
      (fun q hq => ⟨q, by simpa using hq, rfl, rfl⟩) (by simp) h
  | cons r rs ih =>
    intro s h
    rw [List.foldl_cons]
    exact ih (applySettle s r) (applySettle_logInv s r rs h)

theorem tickStep_engineInv (s : EngineState) (h : EngineInv s) :
    EngineInv (tickStep s) := by
  unfold tickStep
  refine foldSettle_logInv _ ⟨s.nextOcc, [], s.log⟩ ?_
  show LogInv s.log s.nextOcc ([] ++ s.inFlight.map decRec)
  rw [List.nil_append]
  refine LogInv.congr_opens _ _ s.inFlight _ ?_ ?_ h
  · intro q hq
    obtain ⟨p, hp, hpq⟩ := List.mem_map.mp hq
    exact ⟨p, hp, by rw [← hpq]; rfl, by rw [← hpq]; rfl⟩
  · rw [List.map_map]
    rfl

theorem dispatchStart_logInv (a : ActionValue) (s : EngineState)
    (subs0 : List HandlerSub) (h : EngineInv s) :
    LogInv (s.log ++ [mkEv s.nextOcc a .dispatched none]) (s.nextOcc + 1)
      (s.inFlight ++ [⟨s.nextOcc, a, subs0⟩]) := by
  have hfreshi : occEvents s.log s.nextOcc = [] := h.freshProj s.nextOcc (Nat.le_refl _)
  refine ⟨?_, ?_, ?_, ?_, ?_⟩
  · rw [List.map_append, List.nodup_append]
    refine ⟨h.nodup, List.nodup_singleton _, ?_⟩
    intro x hx hx2
    obtain ⟨q, hq, hqx⟩ := List.mem_map.mp hx
    have hxi : x = s.nextOcc := by simpa using hx2
    subst hxi
    exact absurd (hqx ▸ h.openLt q hq) (Nat.lt_irrefl _)
  · intro q hq
    rcases List.mem_append.mp hq with hq | hq
    · exact Nat.lt_succ_of_lt (h.openLt q hq)
    · have hqe : q = ⟨s.nextOcc, a, subs0⟩ := by simpa using hq
      subst hqe
      exact Nat.lt_succ_self _
  · intro q hq
    rcases List.mem_append.mp hq with hq | hq
    · have hne : s.nextOcc ≠ q.id := Ne.symm (Nat.ne_of_lt (h.openLt q hq))
      rw [occEvents_append, occEvents_single_ne _ _ _ _ _ hne, List.append_nil]
      exact h.openProj q hq
    · have hqe : q = ⟨s.nextOcc, a, subs0⟩ := by simpa using hq
      subst hqe
      rw [occEvents_append]
      show occEvents s.log s.nextOcc ++ _ = _
      rw [hfreshi, occEvents_single_self, List.nil_append]
  · intro j hj hnj
    have hji : j ≠ s.nextOcc := by
      intro he
      refine hnj ?_
      rw [List.map_append]
      exact List.mem_append_right _ (by simp [he])
    have hjlt : j < s.nextOcc := Nat.lt_of_le_of_ne (Nat.le_of_lt_succ hj) hji
    rw [occEvents_append, occEvents_single_ne _ _ _ _ _ (Ne.symm hji), List.append_nil]
    refine h.closedProj j hjlt ?_
    intro hc
    exact hnj (by rw [List.map_append]; exact List.mem_append_left _ hc)
  · intro j hj
    have hji : s.nextOcc ≠ j :=
      Nat.ne_of_lt (Nat.lt_of_lt_of_le (Nat.lt_succ_self _) hj)
    rw [occEvents_append, occEvents_single_ne _ _ _ _ _ hji, List.append_nil]
    exact h.freshProj j (Nat.le_of_lt (Nat.lt_of_lt_of_le (Nat.lt_succ_self _) hj))

theorem dispatchOne_engineInv (regs : List Registration) (a : ActionValue)
    (s : EngineState) (h : EngineInv s) : EngineInv (dispatchOne regs a s).1 := by
  show EngineInv (applySettle
    (cancelPass (getActionTypeFromInstance a)
      (cancelTargets (matchedRegs regs (getActionTypeFromInstance a)))
      ⟨s.nextOcc + 1, s.inFlight, s.log ++ [mkEv s.nextOcc a .dispatched none]⟩)
    ⟨s.nextOcc, a, startSubs (matchedRegs regs (getActionTypeFromInstance a))⟩)
  have h1 : LogInv (s.log ++ [mkEv s.nextOcc a .dispatched none]) (s.nextOcc + 1)
      (s.inFlight ++ [⟨s.nextOcc, a, startSubs (matchedRegs regs (getActionTypeFromInstance a))⟩]) :=
    dispatchStart_logInv a s _ h
  have h2 := cancelPass_logInv (getActionTypeFromInstance a)
    (cancelTargets (matchedRegs regs (getActionTypeFromInstance a)))
    ⟨s.nextOcc + 1, s.inFlight, s.log ++ [mkEv s.nextOcc a .dispatched none]⟩
    [⟨s.nextOcc, a, startSubs (matchedRegs regs (getActionTypeFromInstance a))⟩] h1
  have h3 := applySettle_logInv _
    ⟨s.nextOcc, a, startSubs (matchedRegs regs (getActionTypeFromInstance a))⟩ [] h2
  exact LogInv.congr_opens _ _ _ _
    (fun q hq => ⟨q, List.mem_append_left _ hq, rfl, rfl⟩) (by simp) h3

theorem dispatchBatch_engineInv (regs : List Registration) (batch : List ActionValue) :
    ∀ (s : EngineState) (acc : List Nat), EngineInv s →
      EngineInv (batch.foldl (fun acc2 a =>
        let r := dispatchOne regs a acc2.1
        (r.1, acc2.2 ++ [r.2])) (s, acc)).1 := by
  induction batch with
  | nil => intro s acc h; exact h
  | cons a rest ih =>
    intro s acc h
    rw [List.foldl_cons]
    exact ih (dispatchOne regs a s).1 _ (dispatchOne_engineInv regs a s h)

theorem stepCmd_engineInv (regs : List Registration) (s : EngineState) (c : Cmd)
    (h : EngineInv s) : EngineInv (stepCmd regs s c) := by
  cases c with
  | dispatch b => exact dispatchBatch_engineInv regs b s [] h
  | tick => exact tickStep_engineInv s h

theorem initState_engineInv : EngineInv initState := by
  refine ⟨List.nodup_nil, ?_, ?_, ?_, ?_⟩
  · intro r hr; cases hr
  · intro r hr; cases hr
  · intro i hi _; cases hi
  · intro i _; rfl

theorem foldl_stepCmd_engineInv (regs : List Registration) (prog : List Cmd) :
    ∀ (s : EngineState), EngineInv s → EngineInv (prog.foldl (stepCmd regs) s) := by
  induction prog with
  | nil => intro s h; exact h
  | cons c rest ih =>
    intro s h
    rw [List.foldl_cons]
    exact ih (stepCmd regs s c) (stepCmd_engineInv regs s c h)

theorem runProg_engineInv (regs : List Registration) (prog : List Cmd) :
    EngineInv (runProg regs prog) :=
  foldl_stepCmd_engineInv regs prog initState initState_engineInv

/-! ## Consequences of the invariant -/

theorem occOutcome_nil (log : List LifecycleEvent) (i : Nat)
    (h : occEvents log i = []) : occOutcome log i = .pending := by
  simp [occOutcome, h]

theorem occOutcome_open (log : List LifecycleEvent) (i : Nat) (a : ActionValue)
    (h : occEvents log i = [mkEv i a .dispatched none]) :
    occOutcome log i = .pending := by
  simp [occOutcome, h, mkEv]

theorem occOutcome_success (log : List LifecycleEvent) (i : Nat) (a : ActionValue)
    (h : occEvents log i = mkEv i a .dispatched none :: settledPair i a none) :
    occOutcome log i = .resolved := by
  simp [occOutcome, h, settledPair, mkEv, ActionResult.ofSuccess]

theorem occOutcome_errored (log : List LifecycleEvent) (i : Nat) (a : ActionValue)
    (e : Err)
    (h : occEvents log i = mkEv i a .dispatched none :: settledPair i a (some e)) :
    occOutcome log i = .rejected e := by
  simp [occOutcome, h, settledPair, mkEv, ActionResult.ofError]

theorem occOutcome_canceled (log : List LifecycleEvent) (i : Nat) (a : ActionValue)
    (h : occEvents log i = mkEv i a .dispatched none :: canceledPair i a) :
    occOutcome log i = .resolved := by
  simp [occOutcome, h, canceledPair, mkEv, ActionResult.ofCanceled]

theorem engineInv_cases (s : EngineState) (h : EngineInv s) (i : Nat) :
    occEvents s.log i = [] ∨
    (∃ a, occEvents s.log i = [mkEv i a .dispatched none]) ∨
    (∃ a, settledEvents i a (occEvents s.log i)) := by
  by_cases hn : i < s.nextOcc
  · by_cases hm : i ∈ s.inFlight.map InFlight.id
    · obtain ⟨r, hr, hrid⟩ := List.mem_map.mp hm
      refine Or.inr (Or.inl ⟨r.action, ?_⟩)
      subst hrid
      exact h.openProj r hr
    · exact Or.inr (Or.inr (h.closedProj i hn hm))
  · exact Or.inl (h.freshProj i (Nat.le_of_not_lt hn))

/-! ## Claim theorems -/

/-- Claim C1: for every dispatched action occurrence, the lifecycle phases
published to the Event Bus are observed in the order DISPATCHED, then exactly
one of SUCCESSFUL, ERRORED, CANCELED, then COMPLETED, and no phase is
published twice for the same occurrence: in every reachable engine state the
phase projection of any occurrence id is a prefix of exactly one of the three
admissible sequences (an occurrence whose handlers never settle stays at
DISPATCHED, as the spec's no-timeout rule requires). -/
theorem dispatch_lifecycle_order (regs : List Registration) (prog : List Cmd)
    (i : Nat) :
    occPhases (runProg regs prog).log i = [] ∨
    occPhases (runProg regs prog).log i = [.dispatched] ∨
    occPhases (runProg regs prog).log i = [.dispatched, .successful, .completed] ∨
    occPhases (runProg regs prog).log i = [.dispatched, .errored, .completed] ∨
    occPhases (runProg regs prog).log i = [.dispatched, .canceled, .completed] := by
  have h := runProg_engineInv regs prog
  rcases engineInv_cases _ h i with hc | ⟨a, hc⟩ | ⟨a, hc⟩
  · exact Or.inl (by simp [occPhases, hc])
  · exact Or.inr (Or.inl (by simp [occPhases, hc, mkEv]))
  · rcases hc with hc | ⟨e, hc⟩ | hc
    · exact Or.inr (Or.inr (Or.inl (by simp [occPhases, hc, settledPair, mkEv])))
    · exact Or.inr (Or.inr (Or.inr (Or.inl
        (by simp [occPhases, hc, settledPair, mkEv]))))
    · exact Or.inr (Or.inr (Or.inr (Or.inr
        (by simp [occPhases, hc, canceledPair, mkEv]))))

/-- Claim C7: when an action occurrence settles as CANCELED, the caller-facing
future returned by dispatch resolves with no value rather than rejecting: in
every reachable engine state, an occurrence with a published CANCELED phase
has a resolved (never rejected) outcome. -/
theorem canceled_occurrence_resolves (regs : List Registration) (prog : List Cmd)
    (i : Nat)
    (h : Phase.canceled ∈ occPhases (runProg regs prog).log i) :
    occOutcome (runProg regs prog).log i = DispatchOutcome.resolved := by
  have hinv := runProg_engineInv regs prog
  rcases engineInv_cases _ hinv i with hc | ⟨a, hc⟩ | ⟨a, hc⟩
  · rw [occPhases, hc] at h
    cases h
  · rw [occPhases, hc] at h
    simp [mkEv] at h
  · rcases hc with hc | ⟨e, hc⟩ | hc
    · rw [occPhases, hc] at h
      simp [settledPair, mkEv] at h
    · rw [occPhases, hc] at h
      simp [settledPair, mkEv] at h
    · exact occOutcome_canceled _ i a hc

/-- Claim C5: errors thrown or emitted inside a handler never escape as
uncaught exceptions: they are captured by the normalization step and turned
into a settlement phase, and the only way an error reaches a direct caller of
dispatch is via the rejection of that call's returned future.  In the model:
in every reachable engine state, the future of an occurrence rejects with `e`
exactly when that occurrence settled through the ERRORED phase with `e`
recorded in its COMPLETED result record — error propagation to the caller and
the ERRORED settlement coincide, and no other channel exists. -/
theorem handler_error_captured (regs : List Registration) (prog : List Cmd)
    (i : Nat) (e : Err) :
    occOutcome (runProg regs prog).log i = DispatchOutcome.rejected e ↔
      ∃ a, occEvents (runProg regs prog).log i =
        [mkEv i a .dispatched none, mkEv i a .errored none,
         mkEv i a .completed (some (ActionResult.ofError e))] := by
  have hinv := runProg_engineInv regs prog
  constructor
  · intro h
    rcases engineInv_cases _ hinv i with hc | ⟨a, hc⟩ | ⟨a, hc⟩
    · rw [occOutcome_nil _ _ hc] at h
      cases h
    · rw [occOutcome_open _ _ _ hc] at h
      cases h
    · rcases hc with hc | ⟨e2, hc⟩ | hc
      · rw [occOutcome_success _ _ _ hc] at h
        cases h
      · rw [occOutcome_errored _ _ _ _ hc] at h
        cases h
        exact ⟨a, by rw [hc]; rfl⟩
      · rw [occOutcome_canceled _ _ _ hc] at h
        cases h
  · intro ⟨a, hc⟩
    exact occOutcome_errored _ i a e (by rw [hc]; rfl)

/-- Witness for C7: a `cancelUncompleted` registration dispatched twice in one
batch cancels the first occurrence, whose future resolves. -/
theorem canceled_occurrence_resolves_witness :
    Phase.canceled ∈ occPhases (runProg [⟨["C"], .streamOf 1 none [], true⟩]
      [.dispatch [.literal "C", .literal "C"]]).log 0 ∧
    occOutcome (runProg [⟨["C"], .streamOf 1 none [], true⟩]
      [.dispatch [.literal "C", .literal "C"]]).log 0 = DispatchOutcome.resolved :=
  ⟨by decide, canceled_occurrence_resolves _ _ 0 (by decide)⟩

theorem cancelPass_no_targets (tag : String) (s : EngineState) :
    cancelPass tag [] s = s := by
  unfold cancelPass
  have h1 : s.inFlight.filter (recHit tag []) = [] := by
    refine List.filter_eq_nil_iff.mpr ?_
    intro r _
    simp [recHit]
  have h2 : s.inFlight.filter (fun r => !(recHit tag [] r)) = s.inFlight := by
    refine List.filter_eq_self.mpr ?_
    intro r _
    simp [recHit]
  rw [h1, h2]
  simp

/-- Claim C6: for every dispatched action with zero matching handler
registrations, dispatch resolves successfully and publishes DISPATCHED,
SUCCESSFUL, COMPLETED in that order, with no ERRORED or CANCELED phase;
dispatching an action with no handlers is not an error.  (The freshness
hypothesis says the occurrence id is new, which holds in every reachable
state by the engine invariant.) -/
theorem no_handler_dispatch (regs : List Registration) (a : ActionValue)
    (s : EngineState)
    (hnone : matchedRegs regs (getActionTypeFromInstance a) = [])
    (hfresh : occEvents s.log s.nextOcc = []) :
    (dispatchOne regs a s).1.log =
      s.log ++ [mkEv s.nextOcc a .dispatched none, mkEv s.nextOcc a .successful none,
        mkEv s.nextOcc a .completed (some ActionResult.ofSuccess)] ∧
    occPhases (dispatchOne regs a s).1.log s.nextOcc =
      [.dispatched, .successful, .completed] ∧
    occOutcome (dispatchOne regs a s).1.log s.nextOcc = DispatchOutcome.resolved := by
  have hdef : (dispatchOne regs a s).1 =
      ⟨s.nextOcc + 1, s.inFlight,
        (s.log ++ [mkEv s.nextOcc a .dispatched none]) ++
          settledPair s.nextOcc a none⟩ := by
    show applySettle
      (cancelPass (getActionTypeFromInstance a)
        (cancelTargets (matchedRegs regs (getActionTypeFromInstance a)))
        ⟨s.nextOcc + 1, s.inFlight, s.log ++ [mkEv s.nextOcc a .dispatched none]⟩)
      ⟨s.nextOcc, a, startSubs (matchedRegs regs (getActionTypeFromInstance a))⟩ = _
    rw [hnone]
    rw [show cancelTargets ([] : List (Nat × Registration)) = [] from rfl]
    rw [cancelPass_no_targets]
    rfl
  have hproj : occEvents (dispatchOne regs a s).1.log s.nextOcc =
      mkEv s.nextOcc a .dispatched none :: settledPair s.nextOcc a none := by
    rw [hdef]
    show occEvents ((s.log ++ [mkEv s.nextOcc a .dispatched none]) ++
      settledPair s.nextOcc a none) s.nextOcc = _
    rw [occEvents_append, occEvents_append, hfresh, occEvents_single_self,
      occEvents_settledPair_self]
    rfl
  refine ⟨?_, ?_, ?_⟩
  · rw [hdef]
    simp [settledPair]
  · rw [occPhases, hproj]
    simp [settledPair, mkEv]
  · exact occOutcome_success _ _ a hproj

/-- Witness for C6: dispatching against an empty registry. -/
theorem no_handler_dispatch_witness :
    matchedRegs [] (getActionTypeFromInstance (.literal "X")) = [] ∧
    occEvents initState.log initState.nextOcc = [] ∧
    occOutcome (dispatchOne [] (.literal "X") initState).1.log initState.nextOcc =
      DispatchOutcome.resolved :=
  ⟨rfl, rfl, (no_handler_dispatch [] (.literal "X") initState rfl rfl).2.2⟩

/-! ## Timed-run computations -/

theorem cancelPass_empty (tag : String) (targets : List Nat) (n : Nat)
    (log : List LifecycleEvent) :
    cancelPass tag targets ⟨n, [], log⟩ = ⟨n, [], log⟩ := by
  unfold cancelPass
  simp

theorem foldl_replicate_tick (regs : List Registration) (m : Nat) :
    ∀ s : EngineState,
      (List.replicate m Cmd.tick).foldl (stepCmd regs) s = tickStep^[m] s := by
  induction m with
  | zero => intro s; rfl
  | succ j ih =>
    intro s
    rw [List.replicate_succ, List.foldl_cons, Function.iterate_succ_apply]
    exact ih (tickStep s)

theorem ticks_settle_single (d : Nat) : ∀ (s : EngineState) (i k : Nat)
    (a : ActionValue) (oe : Option Err),
    s.inFlight = [⟨i, a, [⟨k, d + 1, oe⟩]⟩] →
    tickStep^[d + 1] s = ⟨s.nextOcc, [], s.log ++ settledPair i a oe⟩ := by
  induction d with
  | zero =>
    intro s i k a oe h
    rw [Function.iterate_one]
    unfold tickStep
    rw [h]
    cases oe with
    | none => rfl
    | some e => rfl
  | succ d2 ih =>
    intro s i k a oe h
    rw [Function.iterate_succ_apply]
    have hstep : tickStep s = ⟨s.nextOcc, [⟨i, a, [⟨k, d2 + 1, oe⟩]⟩], s.log⟩ := by
      unfold tickStep
      rw [h]
      rfl
    rw [hstep]
    exact ih _ i k a oe rfl

theorem single_handler_run (regs : List Registration) (a : ActionValue)
    (k : Nat) (reg : Registration)
    (hm : matchedRegs regs (getActionTypeFromInstance a) = [(k, reg)]) :
    runProg regs
      (Cmd.dispatch [a] :: List.replicate (normalizeSettleTime reg.shape) Cmd.tick) =
      ⟨1, [], mkEv 0 a .dispatched none :: settledPair 0 a (normalizeErr reg.shape)⟩ := by
  have hstart : (dispatchOne regs a initState).1 =
      applySettle ⟨1, [], [mkEv 0 a .dispatched none]⟩
        ⟨0, a, [⟨k, normalizeSettleTime reg.shape, normalizeErr reg.shape⟩]⟩ := by
    show applySettle
      (cancelPass (getActionTypeFromInstance a)
        (cancelTargets (matchedRegs regs (getActionTypeFromInstance a)))
        ⟨1, [], [mkEv 0 a .dispatched none]⟩)
      ⟨0, a, startSubs (matchedRegs regs (getActionTypeFromInstance a))⟩ = _
    rw [hm, cancelPass_empty]
    rfl
  show (Cmd.dispatch [a] ::
      List.replicate (normalizeSettleTime reg.shape) Cmd.tick).foldl
      (stepCmd regs) initState = _
  rw [List.foldl_cons]
  have hfirst : stepCmd regs initState (Cmd.dispatch [a]) =
      (dispatchOne regs a initState).1 := rfl
  rw [hfirst, hstart, foldl_replicate_tick]
  cases hd : normalizeSettleTime reg.shape with
  | zero =>
    rw [Function.iterate_zero_apply]
    cases normalizeErr reg.shape with
    | none => rfl
    | some e => rfl
  | succ d2 =>
    have happ : applySettle ⟨1, [], [mkEv 0 a .dispatched none]⟩
        ⟨0, a, [⟨k, d2 + 1, normalizeErr reg.shape⟩]⟩ =
        ⟨1, [⟨0, a, [⟨k, d2 + 1, normalizeErr reg.shape⟩]⟩],
          [mkEv 0 a .dispatched none]⟩ := rfl
    rw [happ, ticks_settle_single d2 _ 0 k a (normalizeErr reg.shape) rfl]
    rfl

/-- Claim C3: for every action with exactly one handler whose normalized
asynchronous result settles with an error, the future returned by dispatch
rejects with that same error value, and the COMPLETED lifecycle event's
result record is {successful: false, canceled: false, error: that error}
(the record `ActionResult.ofError e`). -/
theorem single_error_handler (regs : List Registration) (a : ActionValue)
    (k : Nat) (reg : Registration) (e : Err)
    (hm : matchedRegs regs (getActionTypeFromInstance a) = [(k, reg)])
    (he : normalizeErr reg.shape = some e) :
    occEvents (runProg regs (Cmd.dispatch [a] ::
        List.replicate (normalizeSettleTime reg.shape) Cmd.tick)).log 0 =
      [mkEv 0 a .dispatched none, mkEv 0 a .errored none,
       mkEv 0 a .completed (some (ActionResult.ofError e))] ∧
    occOutcome (runProg regs (Cmd.dispatch [a] ::
        List.replicate (normalizeSettleTime reg.shape) Cmd.tick)).log 0 =
      DispatchOutcome.rejected e := by
  have hrun := single_handler_run regs a k reg hm
  rw [he] at hrun
  have hproj : occEvents (runProg regs (Cmd.dispatch [a] ::
      List.replicate (normalizeSettleTime reg.shape) Cmd.tick)).log 0 =
      mkEv 0 a .dispatched none :: settledPair 0 a (some e) := by
    rw [hrun]
    show occEvents (mkEv 0 a .dispatched none :: settledPair 0 a (some e)) 0 = _
    simp [occEvents, settledPair, mkEv]
  exact ⟨by rw [hproj]; rfl, occOutcome_errored _ 0 a e hproj⟩

/-- Witness for C3: a single registration whose handler returns a
synchronously erroring stream. -/
theorem single_error_handler_witness :
    matchedRegs [⟨["E"], .streamOf 0 (some "boom") [], false⟩]
      (getActionTypeFromInstance (.literal "E")) =
      [(0, ⟨["E"], .streamOf 0 (some "boom") [], false⟩)] ∧
    normalizeErr (HandlerReturnShape.streamOf 0 (some "boom") []) = some "boom" ∧
    occOutcome (runProg [⟨["E"], .streamOf 0 (some "boom") [], false⟩]
      (Cmd.dispatch [.literal "E"] :: List.replicate
        (normalizeSettleTime (HandlerReturnShape.streamOf 0 (some "boom") [])) Cmd.tick)).log 0 =
      DispatchOutcome.rejected "boom" := by
  refine ⟨rfl, rfl, ?_⟩
  exact (single_error_handler [⟨["E"], .streamOf 0 (some "boom") [], false⟩]
    (.literal "E") 0 ⟨["E"], .streamOf 0 (some "boom") [], false⟩ "boom" rfl rfl).2

theorem cancel_run_shape (regs : List Registration) (a : ActionValue)
    (k : Nat) (reg : Registration) (d : Nat)
    (hm : matchedRegs regs (getActionTypeFromInstance a) = [(k, reg)])
    (hcu : reg.cancelUncompleted = true)
    (hok : normalizeErr reg.shape = none)
    (hd : normalizeSettleTime reg.shape = d + 1) :
    runProg regs (Cmd.dispatch [a, a] :: List.replicate (d + 1) Cmd.tick) =
      ⟨2, [],
        ([mkEv 0 a .dispatched none, mkEv 1 a .dispatched none] ++
          canceledPair 0 a) ++ settledPair 1 a none⟩ := by
  have h1 : (dispatchOne regs a initState).1 =
      ⟨1, [⟨0, a, [⟨k, d + 1, none⟩]⟩], [mkEv 0 a .dispatched none]⟩ := by
    show applySettle
      (cancelPass (getActionTypeFromInstance a)
        (cancelTargets (matchedRegs regs (getActionTypeFromInstance a)))
        ⟨1, [], [mkEv 0 a .dispatched none]⟩)
      ⟨0, a, startSubs (matchedRegs regs (getActionTypeFromInstance a))⟩ = _
    rw [hm, cancelPass_empty]
    show applySettle _
      ⟨0, a, [⟨k, normalizeSettleTime reg.shape, normalizeErr reg.shape⟩]⟩ = _
    rw [hd, hok]
    rfl
  have hct : cancelTargets [(k, reg)] = [k] := by
    simp [cancelTargets, hcu]
  have hrh : recHit (getActionTypeFromInstance a) [k] ⟨0, a, [⟨k, d + 1, none⟩]⟩ = true := by
    simp [recHit]
  have hcp : cancelPass (getActionTypeFromInstance a) [k]
      ⟨2, [⟨0, a, [⟨k, d + 1, none⟩]⟩],
        [mkEv 0 a .dispatched none, mkEv 1 a .dispatched none]⟩ =
      ⟨2, [], [mkEv 0 a .dispatched none, mkEv 1 a .dispatched none] ++
        canceledPair 0 a⟩ := by
    simp [cancelPass, hrh]
  have h2 : (dispatchOne regs a
      ⟨1, [⟨0, a, [⟨k, d + 1, none⟩]⟩], [mkEv 0 a .dispatched none]⟩).1 =
      ⟨2, [⟨1, a, [⟨k, d + 1, none⟩]⟩],
        [mkEv 0 a .dispatched none, mkEv 1 a .dispatched none] ++
          canceledPair 0 a⟩ := by
    show applySettle
      (cancelPass (getActionTypeFromInstance a)
        (cancelTargets (matchedRegs regs (getActionTypeFromInstance a)))
        ⟨2, [⟨0, a, [⟨k, d + 1, none⟩]⟩],
          [mkEv 0 a .dispatched none, mkEv 1 a .dispatched none]⟩)
      ⟨1, a, startSubs (matchedRegs regs (getActionTypeFromInstance a))⟩ = _
    rw [hm, hct, hcp]
    show applySettle _
      ⟨1, a, [⟨k, normalizeSettleTime reg.shape, normalizeErr reg.shape⟩]⟩ = _
    rw [hd, hok]
    rfl
  show (Cmd.dispatch [a, a] :: List.replicate (d + 1) Cmd.tick).foldl
      (stepCmd regs) initState = _
  rw [List.foldl_cons]
  have hbatch : stepCmd regs initState (Cmd.dispatch [a, a]) =
      (dispatchOne regs a (dispatchOne regs a initState).1).1 := rfl
  rw [hbatch, h1, h2, foldl_replicate_tick,
    ticks_settle_single d _ 1 k a none rfl]

/-- Claim C2: for every handler registered with cancelUncompleted true,
dispatching the same action type twice before the first invocation's
asynchronous work completes causes the first occurrence's phase sequence to
settle as CANCELED (not SUCCESSFUL or ERRORED) and the second occurrence to
complete normally, settling as SUCCESSFUL; both caller-facing futures
resolve. -/
theorem cancel_uncompleted_second_dispatch (regs : List Registration)
    (a : ActionValue) (k : Nat) (reg : Registration) (d : Nat)
    (hm : matchedRegs regs (getActionTypeFromInstance a) = [(k, reg)])
    (hcu : reg.cancelUncompleted = true)
    (hok : normalizeErr reg.shape = none)
    (hd : normalizeSettleTime reg.shape = d + 1) :
    occEvents (runProg regs
        (Cmd.dispatch [a, a] :: List.replicate (d + 1) Cmd.tick)).log 0 =
      [mkEv 0 a .dispatched none, mkEv 0 a .canceled none,
       mkEv 0 a .completed (some ActionResult.ofCanceled)] ∧
    occEvents (runProg regs
        (Cmd.dispatch [a, a] :: List.replicate (d + 1) Cmd.tick)).log 1 =
      [mkEv 1 a .dispatched none, mkEv 1 a .successful none,
       mkEv 1 a .completed (some ActionResult.ofSuccess)] ∧
    occOutcome (runProg regs
        (Cmd.dispatch [a, a] :: List.replicate (d + 1) Cmd.tick)).log 0 =
      DispatchOutcome.resolved ∧
    occOutcome (runProg regs
        (Cmd.dispatch [a, a] :: List.replicate (d + 1) Cmd.tick)).log 1 =
      DispatchOutcome.resolved := by
  have hrun := cancel_run_shape regs a k reg d hm hcu hok hd
  have hp0 : occEvents (runProg regs
      (Cmd.dispatch [a, a] :: List.replicate (d + 1) Cmd.tick)).log 0 =
      mkEv 0 a .dispatched none :: canceledPair 0 a := by
    rw [hrun]
    show occEvents (([mkEv 0 a .dispatched none, mkEv 1 a .dispatched none] ++
      canceledPair 0 a) ++ settledPair 1 a none) 0 = _
    rw [occEvents_append, occEvents_append, occEvents_canceledPair_self,
      occEvents_settledPair_ne 0 1 a none (by decide)]
    simp [occEvents, mkEv]
  have hp1 : occEvents (runProg regs
      (Cmd.dispatch [a, a] :: List.replicate (d + 1) Cmd.tick)).log 1 =
      mkEv 1 a .dispatched none :: settledPair 1 a none := by
    rw [hrun]
    show occEvents (([mkEv 0 a .dispatched none, mkEv 1 a .dispatched none] ++
      canceledPair 0 a) ++ settledPair 1 a none) 1 = _
    rw [occEvents_append, occEvents_append, occEvents_settledPair_self,
      occEvents_canceledPair_ne 1 0 a (by decide)]
    simp [occEvents, mkEv]
  refine ⟨?_, ?_, ?_, ?_⟩
  · rw [hp0]; rfl
  · rw [hp1]; rfl
  · exact occOutcome_canceled _ 0 a hp0
  · exact occOutcome_success _ 1 a hp1

/-- Witness for C2: a single cancelUncompleted registration whose handler
returns a stream completing after one tick, dispatched twice in one batch. -/
theorem cancel_uncompleted_second_dispatch_witness :
    matchedRegs [⟨["C"], .streamOf 1 none [], true⟩]
      (getActionTypeFromInstance (.literal "C")) =
      [(0, ⟨["C"], .streamOf 1 none [], true⟩)] ∧
    occOutcome (runProg [⟨["C"], .streamOf 1 none [], true⟩]
      (Cmd.dispatch [.literal "C", .literal "C"] ::
        List.replicate (0 + 1) Cmd.tick)).log 0 = DispatchOutcome.resolved := by
  refine ⟨rfl, ?_⟩
  exact (cancel_uncompleted_second_dispatch [⟨["C"], .streamOf 1 none [], true⟩]
    (.literal "C") 0 ⟨["C"], .streamOf 1 none [], true⟩ 0 rfl rfl rfl rfl).2.2.1

/-! ## Tag-based routing (C8) -/


theorem evSig_settledPair (i : Nat) (a b : ActionValue) (oe : Option Err)
    (hab : getActionTypeFromInstance a = getActionTypeFromInstance b) :
    (settledPair i a oe).map evSig = (settledPair i b oe).map evSig := by
  cases oe <;> simp [settledPair, evSig, mkEv, hab]

theorem evSig_applySettle (s1 s2 : EngineState) (r1 r2 : InFlight)
    (hid : r1.id = r2.id)
    (hact : getActionTypeFromInstance r1.action = getActionTypeFromInstance r2.action)
    (hsubs : r1.subs = r2.subs)
    (hlog : s1.log.map evSig = s2.log.map evSig) :
    (applySettle s1 r1).log.map evSig = (applySettle s2 r2).log.map evSig := by
  unfold applySettle
  rw [hsubs]
  cases settleRecord r2.subs with
  | errored e =>
    show (s1.log ++ settledPair r1.id r1.action (some e)).map evSig =
      (s2.log ++ settledPair r2.id r2.action (some e)).map evSig
    rw [List.map_append, List.map_append, hlog, hid,
      evSig_settledPair _ _ _ _ hact]
  | successful =>
    show (s1.log ++ settledPair r1.id r1.action none).map evSig =
      (s2.log ++ settledPair r2.id r2.action none).map evSig
    rw [List.map_append, List.map_append, hlog, hid,
      evSig_settledPair _ _ _ _ hact]
  | still subs2 => exact hlog

theorem cancelPass_log (tag : String) (targets : List Nat) (s : EngineState) :
    (cancelPass tag targets s).log =
      s.log ++ (s.inFlight.filter (recHit tag targets)).flatMap
        (fun r => canceledPair r.id r.action) := rfl

theorem dispatchOne_log_tag (regs : List Registration) (a b : ActionValue)
    (s : EngineState)
    (hab : getActionTypeFromInstance a = getActionTypeFromInstance b) :
    (dispatchOne regs a s).1.log.map evSig =
      (dispatchOne regs b s).1.log.map evSig := by
  show (applySettle
      (cancelPass (getActionTypeFromInstance a)
        (cancelTargets (matchedRegs regs (getActionTypeFromInstance a)))
        ⟨s.nextOcc + 1, s.inFlight, s.log ++ [mkEv s.nextOcc a .dispatched none]⟩)
      ⟨s.nextOcc, a, startSubs (matchedRegs regs (getActionTypeFromInstance a))⟩).log.map evSig =
    (applySettle
      (cancelPass (getActionTypeFromInstance b)
        (cancelTargets (matchedRegs regs (getActionTypeFromInstance b)))
        ⟨s.nextOcc + 1, s.inFlight, s.log ++ [mkEv s.nextOcc b .dispatched none]⟩)
      ⟨s.nextOcc, b, startSubs (matchedRegs regs (getActionTypeFromInstance b))⟩).log.map evSig
  rw [hab]
  refine evSig_applySettle _ _ _ _ rfl hab rfl ?_
  rw [cancelPass_log, cancelPass_log]
  show ((s.log ++ [mkEv s.nextOcc a .dispatched none]) ++
      (s.inFlight.filter _).flatMap (fun r => canceledPair r.id r.action)).map evSig = _
  rw [List.map_append, List.map_append, List.map_append, List.map_append]
  have hD : ([mkEv s.nextOcc a .dispatched none]).map evSig =
      ([mkEv s.nextOcc b .dispatched none]).map evSig := by
    simp [evSig, mkEv, hab]
  rw [hD]

/-- Claim C8: actions dispatched as object literals and as class instances
sharing the same string type tag are routed to handlers identically and are
indistinguishable to the filter helpers: the extracted tags coincide, the
registry resolves the same registration sequence, the filter helpers select
the same events from any log, and a dispatch of either publishes the same
event sequence up to the payload identity of the action value — matching is
by type-tag equality, never by object identity. -/
theorem literal_and_instance_routed_identically (regs : List Registration)
    (t : String) (p : Nat) (ph : List Phase) (log : List LifecycleEvent)
    (s : EngineState) :
    getActionTypeFromInstance (.inst t p) = getActionTypeFromInstance (.literal t) ∧
    matchedRegs regs (getActionTypeFromInstance (.inst t p)) =
      matchedRegs regs (getActionTypeFromInstance (.literal t)) ∧
    ofActionWhere [.inst t p] ph log = ofActionWhere [.literal t] ph log ∧
    (dispatchOne regs (.inst t p) s).1.log.map evSig =
      (dispatchOne regs (.literal t) s).1.log.map evSig := by
  refine ⟨rfl, rfl, ?_, dispatchOne_log_tag regs _ _ s rfl⟩
  unfold ofActionWhere
  refine List.filter_congr ?_
  intro ev _
  rfl

/-! ## Event Bus multicast (C9) -/

theorem bus_delivery_at (b : EventBus) (ev : LifecycleEvent) (k : Nat)
    (hk : k < b.subs.length) :
    (EventBus.publish b ev).deliveries[b.deliveries.length + k]? =
      some (b.subs.get ⟨k, hk⟩, ev) := by
  show (b.deliveries ++ b.subs.map (fun sid => (sid, ev)))[b.deliveries.length + k]? = _
  rw [List.getElem?_append_right (Nat.le_add_right _ _), Nat.add_sub_cancel_left,
    List.getElem?_map, List.getElem?_eq_getElem (by simpa using hk)]
  rfl

/-- Claim C9: for every lifecycle event published on the Event Bus, delivery
is synchronous multicast in subscription order to the subscribers present at
publish time: the publish call appends exactly one delivery per currently
subscribed subscriber, in subscription-list order, so a subscriber that
subscribed earlier (position k) observes the event at an earlier delivery
position than any subscriber that subscribed later (position l > k), and
nobody outside the subscription list at publish time receives it. -/
theorem bus_multicast_subscription_order (b : EventBus) (ev : LifecycleEvent)
    (k l : Nat) (hkl : k < l) (hl : l < b.subs.length) :
    (EventBus.publish b ev).deliveries =
      b.deliveries ++ b.subs.map (fun sid => (sid, ev)) ∧
    (EventBus.publish b ev).deliveries[b.deliveries.length + k]? =
      some (b.subs.get ⟨k, Nat.lt_trans hkl hl⟩, ev) ∧
    (EventBus.publish b ev).deliveries[b.deliveries.length + l]? =
      some (b.subs.get ⟨l, hl⟩, ev) ∧
    b.deliveries.length + k < b.deliveries.length + l :=
  ⟨rfl, bus_delivery_at b ev k (Nat.lt_trans hkl hl), bus_delivery_at b ev l hl,
    Nat.add_lt_add_left hkl _⟩

/-- Witness for C9: a bus with two subscribers, in subscription order. -/
theorem bus_multicast_subscription_order_witness :
    (0 : Nat) < 1 ∧
    1 < ((EventBus.subscribe (EventBus.subscribe ⟨[], []⟩ 7) 8).subs).length ∧
    (EventBus.publish (EventBus.subscribe (EventBus.subscribe ⟨[], []⟩ 7) 8)
        (mkEv 0 (.literal "A") .dispatched none)).deliveries[0 + 0]? =
      some (7, mkEv 0 (.literal "A") .dispatched none) :=
  ⟨by decide, by decide, by
    have h := (bus_multicast_subscription_order
      (EventBus.subscribe (EventBus.subscribe ⟨[], []⟩ 7) 8)
      (mkEv 0 (.literal "A") .dispatched none) 0 1 (by decide) (by decide)).2.1
    simpa using h⟩

/-! ## Shallow normalization (C10) -/



theorem normalizeSettleTime_shallow (sh : HandlerReturnShape) :
    normalizeSettleTime (shallowShape sh) = normalizeSettleTime sh := by
  cases sh <;> rfl

theorem normalizeErr_shallow (sh : HandlerReturnShape) :
    normalizeErr (shallowShape sh) = normalizeErr sh := by
  cases sh <;> rfl

theorem matchedFrom_map_shallow (regs : List Registration) : ∀ (i : Nat) (tag : String),
    matchedFrom i (regs.map shallowReg) tag =
      (matchedFrom i regs tag).map (fun p => (p.1, shallowReg p.2)) := by
  induction regs with
  | nil => intro i tag; rfl
  | cons r rs ih =>
    intro i tag
    show (if tag ∈ r.tags then
        (i, shallowReg r) :: matchedFrom (i + 1) (rs.map shallowReg) tag
      else matchedFrom (i + 1) (rs.map shallowReg) tag) =
      (if tag ∈ r.tags then (i, r) :: matchedFrom (i + 1) rs tag
       else matchedFrom (i + 1) rs tag).map (fun p => (p.1, shallowReg p.2))
    by_cases h : tag ∈ r.tags
    · rw [if_pos h, if_pos h, List.map_cons, ih]
    · rw [if_neg h, if_neg h, ih]

theorem startSubs_map_shallow (matched : List (Nat × Registration)) :
    startSubs (matched.map (fun p => (p.1, shallowReg p.2))) = startSubs matched := by
  unfold startSubs
  rw [List.map_map]
  refine List.map_congr_left ?_
  intro p _
  show HandlerSub.mk p.1 (normalizeSettleTime (shallowShape p.2.shape))
      (normalizeErr (shallowShape p.2.shape)) = _
  rw [normalizeSettleTime_shallow, normalizeErr_shallow]

theorem cancelTargets_map_shallow (matched : List (Nat × Registration)) :
    cancelTargets (matched.map (fun p => (p.1, shallowReg p.2))) =
      cancelTargets matched := by
  induction matched with
  | nil => rfl
  | cons p ps ih =>
    show cancelTargets ((p.1, shallowReg p.2) ::
      ps.map (fun q => (q.1, shallowReg q.2))) = cancelTargets (p :: ps)
    unfold cancelTargets
    rw [List.filter_cons, List.filter_cons]
    by_cases h : p.2.cancelUncompleted = true
    · rw [if_pos (by exact h), if_pos (by exact h), List.map_cons, List.map_cons]
      unfold cancelTargets at ih
      rw [ih]
    · rw [if_neg (by exact h), if_neg (by exact h)]
      unfold cancelTargets at ih
      rw [ih]

theorem dispatchOne_shallow (regs : List Registration) (a : ActionValue)
    (s : EngineState) :
    dispatchOne (regs.map shallowReg) a s = dispatchOne regs a s := by
  show (applySettle (cancelPass (getActionTypeFromInstance a)
      (cancelTargets (matchedRegs (regs.map shallowReg) (getActionTypeFromInstance a)))
      ⟨s.nextOcc + 1, s.inFlight, s.log ++ [mkEv s.nextOcc a .dispatched none]⟩)
      ⟨s.nextOcc, a,
        startSubs (matchedRegs (regs.map shallowReg) (getActionTypeFromInstance a))⟩,
      s.nextOcc) = _
  rw [show matchedRegs (regs.map shallowReg) (getActionTypeFromInstance a) =
      (matchedRegs regs (getActionTypeFromInstance a)).map (fun p => (p.1, shallowReg p.2))
      from matchedFrom_map_shallow regs 0 _,
    startSubs_map_shallow, cancelTargets_map_shallow]
  rfl

theorem dispatchBatch_shallow (regs : List Registration) (batch : List ActionValue)
    (s : EngineState) :
    dispatchBatch (regs.map shallowReg) batch s = dispatchBatch regs batch s := by
  unfold dispatchBatch
  have hfun : (fun (acc : EngineState × List Nat) (a : ActionValue) =>
      let r := dispatchOne (regs.map shallowReg) a acc.1
      (r.1, acc.2 ++ [r.2])) =
      (fun (acc : EngineState × List Nat) (a : ActionValue) =>
        let r := dispatchOne regs a acc.1
        (r.1, acc.2 ++ [r.2])) := by
    funext acc a
    rw [dispatchOne_shallow]
  rw [hfun]

theorem stepCmd_shallow (regs : List Registration) (s : EngineState) (c : Cmd) :
    stepCmd (regs.map shallowReg) s c = stepCmd regs s c := by
  cases c with
  | dispatch b =>
    show (dispatchBatch (regs.map shallowReg) b s).1 = (dispatchBatch regs b s).1
    rw [dispatchBatch_shallow]
  | tick => rfl

/-- Claim C10: the normalization of handler return values is shallow: a
handler returning a promise is considered settled exactly when the promise
resolves, even if the resolved value is itself a not-yet-completed artifact,
and a handler returning a stream is considered settled exactly when the
stream completes, even if the values it emitted are unresolved promises.  In
the model: erasing every nested artifact from every registered handler
(`shallowReg`) changes no run of the engine at all, and the normalized settle
tick and settlement error of a promise or stream ignore the nested artifact
entirely.  Nested artifacts only matter when dispatched on their own, as a
separate occurrence with its own independently published lifecycle. -/
theorem normalization_is_shallow :
    (∀ (regs : List Registration) (prog : List Cmd),
      runProg (regs.map shallowReg) prog = runProg regs prog) ∧
    (∀ (t : Nat) (e : Option Err) (inner : HandlerReturnShape),
      normalizeSettleTime (.promiseOf t e (some inner)) = t ∧
      normalizeErr (.promiseOf t e (some inner)) = e) ∧
    (∀ (t : Nat) (e : Option Err) (emitted : List HandlerReturnShape),
      normalizeSettleTime (.streamOf t e emitted) = t ∧
      normalizeErr (.streamOf t e emitted) = e) := by
  refine ⟨?_, fun t e inner => ⟨rfl, rfl⟩, fun t e emitted => ⟨rfl, rfl⟩⟩
  intro regs prog
  unfold runProg
  have hfun : stepCmd (regs.map shallowReg) = stepCmd regs := by
    funext s c
    exact stepCmd_shallow regs s c
  rw [hfun]

/-! ## Batch dispatch join semantics (C4) -/

theorem headMem_of_eq (l : List Err) (x : Err) (h : l.head? = some x) : x ∈ l := by
  cases l with
  | nil => cases h
  | cons y ys =>
    rw [List.head?_cons] at h
    injection h with h2
    rw [← h2]
    exact List.mem_cons_self y ys

theorem dispatchOne_fst_nextOcc (regs : List Registration) (a : ActionValue)
    (s : EngineState) : (dispatchOne regs a s).1.nextOcc = s.nextOcc + 1 := by
  show (applySettle
    (cancelPass (getActionTypeFromInstance a)
      (cancelTargets (matchedRegs regs (getActionTypeFromInstance a)))
      ⟨s.nextOcc + 1, s.inFlight, s.log ++ [mkEv s.nextOcc a .dispatched none]⟩)
    ⟨s.nextOcc, a, startSubs (matchedRegs regs (getActionTypeFromInstance a))⟩).nextOcc = _
  rw [applySettle_nextOcc]
  rfl

theorem dispatchBatch_core (regs : List Registration) (batch : List ActionValue) :
    ∀ (s : EngineState) (acc : List Nat),
      (batch.foldl (fun acc2 a =>
          let r := dispatchOne regs a acc2.1
          (r.1, acc2.2 ++ [r.2])) (s, acc)).2 =
        acc ++ idsFrom s.nextOcc batch.length ∧
      (batch.foldl (fun acc2 a =>
          let r := dispatchOne regs a acc2.1
          (r.1, acc2.2 ++ [r.2])) (s, acc)).1.nextOcc = s.nextOcc + batch.length := by
  induction batch with
  | nil =>
    intro s acc
    exact ⟨by simp [idsFrom], rfl⟩
  | cons a rest ih =>
    intro s acc
    rw [List.foldl_cons]
    show (rest.foldl (fun acc2 a2 =>
        let r := dispatchOne regs a2 acc2.1
        (r.1, acc2.2 ++ [r.2])) ((dispatchOne regs a s).1, acc ++ [s.nextOcc])).2 =
        acc ++ idsFrom s.nextOcc (a :: rest).length ∧
      (rest.foldl (fun acc2 a2 =>
        let r := dispatchOne regs a2 acc2.1
        (r.1, acc2.2 ++ [r.2])) ((dispatchOne regs a s).1, acc ++ [s.nextOcc])).1.nextOcc =
        s.nextOcc + (a :: rest).length
    obtain ⟨h1, h2⟩ := ih (dispatchOne regs a s).1 (acc ++ [s.nextOcc])
    rw [dispatchOne_fst_nextOcc] at h1 h2
    constructor
    · rw [h1, List.append_assoc]
      rfl
    · rw [h2]
      simp only [List.length_cons]
      omega

theorem phases_mem_completed_of_settled (i : Nat) (a : ActionValue)
    (evs : List LifecycleEvent) (h : settledEvents i a evs) :
    Phase.completed ∈ evs.map LifecycleEvent.phase := by
  rcases h with h | ⟨e, h⟩ | h <;> rw [h] <;> simp [settledPair, canceledPair, mkEv]

theorem occOutcome_isSettled_iff (s : EngineState) (hinv : EngineInv s) (i : Nat) :
    (occOutcome s.log i).isSettled = true ↔
      Phase.completed ∈ occPhases s.log i := by
  rcases engineInv_cases s hinv i with hc | ⟨a, hc⟩ | ⟨a, hc⟩
  · rw [occOutcome_nil _ _ hc]
    simp [occPhases, hc, DispatchOutcome.isSettled]
  · rw [occOutcome_open _ _ _ hc]
    simp [occPhases, hc, mkEv, DispatchOutcome.isSettled]
  · constructor
    · intro _
      rw [occPhases]
      exact phases_mem_completed_of_settled i a _ hc
    · intro _
      rcases hc with hc | ⟨e, hc⟩ | hc
      · rw [occOutcome_success _ _ _ hc]; rfl
      · rw [occOutcome_errored _ _ _ _ hc]; rfl
      · rw [occOutcome_canceled _ _ _ hc]; rfl

theorem errored_phase_shape (s : EngineState) (hinv : EngineInv s) (i : Nat)
    (h : Phase.errored ∈ occPhases s.log i) :
    ∃ a e, occEvents s.log i =
      mkEv i a .dispatched none :: settledPair i a (some e) := by
  rcases engineInv_cases s hinv i with hc | ⟨a, hc⟩ | ⟨a, hc⟩
  · rw [occPhases, hc] at h
    cases h
  · rw [occPhases, hc] at h
    simp [mkEv] at h
  · rcases hc with hc | ⟨e, hc⟩ | hc
    · rw [occPhases, hc] at h
      simp [settledPair, mkEv] at h
    · exact ⟨a, e, hc⟩
    · rw [occPhases, hc] at h
      simp [canceledPair, mkEv] at h

theorem batchErr_shape (s : EngineState) (hinv : EngineInv s) (ids : List Nat)
    (e : Err) (he : e ∈ batchErrs s.log ids) :
    ∃ i ∈ ids, ∃ a, occEvents s.log i =
      mkEv i a .dispatched none :: settledPair i a (some e) := by
  obtain ⟨ev, hev, hf⟩ := List.mem_filterMap.mp he
  by_cases hcond : ev.occId ∈ ids ∧ ev.phase = Phase.completed
  · rw [if_pos hcond] at hf
    have hevproj : ev ∈ occEvents s.log ev.occId :=
      List.mem_filter.mpr ⟨hev, by simp⟩
    rcases engineInv_cases s hinv ev.occId with hc | ⟨a2, hc⟩ | ⟨a2, hc⟩
    · rw [hc] at hevproj
      cases hevproj
    · rw [hc] at hevproj
      have h3 := List.mem_singleton.mp hevproj
      rw [h3] at hcond
      simp [mkEv] at hcond
    · rcases hc with hc | ⟨e2, hc⟩ | hc
      · rw [hc] at hevproj
        simp only [settledPair, mkEv, List.mem_cons, List.not_mem_nil, or_false] at hevproj
        rcases hevproj with h3 | h3 | h3
        · rw [h3] at hcond; simp at hcond
        · rw [h3] at hcond; simp at hcond
        · rw [h3] at hf; simp [ActionResult.ofSuccess] at hf
      · rw [hc] at hevproj
        simp only [settledPair, mkEv, List.mem_cons, List.not_mem_nil, or_false] at hevproj
        rcases hevproj with h3 | h3 | h3
        · rw [h3] at hcond; simp at hcond
        · rw [h3] at hcond; simp at hcond
        · refine ⟨ev.occId, hcond.1, a2, ?_⟩
          rw [h3] at hf
          simp [ActionResult.ofError] at hf
          rw [hc, hf]
      · rw [hc] at hevproj
        simp only [canceledPair, mkEv, List.mem_cons, List.not_mem_nil, or_false] at hevproj
        rcases hevproj with h3 | h3 | h3
        · rw [h3] at hcond; simp at hcond
        · rw [h3] at hcond; simp at hcond
        · rw [h3] at hf; simp [ActionResult.ofCanceled] at hf
  · rw [if_neg hcond] at hf
    cases hf

theorem errored_mem_batchErrs (s : EngineState) (ids : List Nat) (i : Nat)
    (a : ActionValue) (e : Err) (hi : i ∈ ids)
    (hshape : occEvents s.log i =
      mkEv i a .dispatched none :: settledPair i a (some e)) :
    e ∈ batchErrs s.log ids := by
  have hev : mkEv i a .completed (some (ActionResult.ofError e)) ∈ occEvents s.log i := by
    rw [hshape]
    simp [settledPair]
  have hevlog : mkEv i a .completed (some (ActionResult.ofError e)) ∈ s.log :=
    (List.mem_filter.mp hev).1
  exact List.mem_filterMap.mpr ⟨_, hevlog, by rw [if_pos ⟨hi, rfl⟩]; rfl⟩

theorem batchOutcome_settle_iff_inv (s : EngineState) (hinv : EngineInv s)
    (ids : List Nat) :
    (batchOutcome s.log ids).isSettled = true ↔
      ((∀ i ∈ ids, Phase.completed ∈ occPhases s.log i) ∨
       (∃ i ∈ ids, Phase.errored ∈ occPhases s.log i)) := by
  constructor
  · intro h
    unfold batchOutcome at h
    cases hF : (batchErrs s.log ids).head? with
    | some e =>
      obtain ⟨i, hi, a, hshape⟩ :=
        batchErr_shape s hinv ids e (headMem_of_eq _ _ hF)
      refine Or.inr ⟨i, hi, ?_⟩
      rw [occPhases, hshape]
      simp [settledPair, mkEv]
    | none =>
      rw [hF] at h
      by_cases hall : ids.all (fun i => (occOutcome s.log i).isSettled) = true
      · left
        intro i hi
        exact (occOutcome_isSettled_iff s hinv i).mp (List.all_eq_true.mp hall i hi)
      · rw [if_neg hall] at h
        cases h
  · intro h
    rcases h with hall | ⟨i, hi, herr⟩
    · unfold batchOutcome
      cases hF : (batchErrs s.log ids).head? with
      | some e => rfl
      | none =>
        have hids : ids.all (fun i => (occOutcome s.log i).isSettled) = true := by
          rw [List.all_eq_true]
          intro i hi
          exact (occOutcome_isSettled_iff s hinv i).mpr (hall i hi)
        rw [if_pos hids]
        rfl
    · obtain ⟨a, e, hshape⟩ := errored_phase_shape s hinv i herr
      have hmem := errored_mem_batchErrs s ids i a e hi hshape
      unfold batchOutcome
      cases hF : (batchErrs s.log ids).head? with
      | some e2 => rfl
      | none =>
        rw [List.head?_eq_none_iff] at hF
        rw [hF] at hmem
        cases hmem

theorem batchOutcome_rejected_shape (s : EngineState) (hinv : EngineInv s)
    (ids : List Nat) (e : Err)
    (h : batchOutcome s.log ids = DispatchOutcome.rejected e) :
    ∃ i ∈ ids, ∃ a, occEvents s.log i =
      mkEv i a .dispatched none :: settledPair i a (some e) := by
  unfold batchOutcome at h
  cases hF : (batchErrs s.log ids).head? with
  | some e2 =>
    rw [hF] at h
    injection h with h2
    subst h2
    exact batchErr_shape s hinv ids e2 (headMem_of_eq _ _ hF)
  | none =>
    rw [hF] at h
    by_cases hall : ids.all (fun i => (occOutcome s.log i).isSettled) = true
    · rw [if_pos hall] at h
      cases h
    · rw [if_neg hall] at h
      cases h

theorem batchOutcome_resolved_all_completed (s : EngineState) (hinv : EngineInv s)
    (ids : List Nat)
    (h : batchOutcome s.log ids = DispatchOutcome.resolved) :
    ∀ i ∈ ids, Phase.completed ∈ occPhases s.log i := by
  unfold batchOutcome at h
  cases hF : (batchErrs s.log ids).head? with
  | some e2 =>
    rw [hF] at h
    cases h
  | none =>
    rw [hF] at h
    by_cases hall : ids.all (fun i => (occOutcome s.log i).isSettled) = true
    · intro i hi
      exact (occOutcome_isSettled_iff s hinv i).mp (List.all_eq_true.mp hall i hi)
    · rw [if_neg hall] at h
      cases h

/-- Claim C4: for every batch dispatch of a sequence of actions in one call,
each action is processed independently through the full pipeline — the batch
is a fold of the single-action pipeline `dispatchOne`, allocating one fresh
occurrence id per action, in order — and the caller-facing joined future
settles exactly when all actions in the batch have completed (success), or as
soon as any one of them errors (failure): in every reachable state the joined
future is settled iff every batch occurrence has published COMPLETED or some
batch occurrence has published ERRORED; when it resolves every batch
occurrence has completed, and when it rejects with `e` some batch occurrence
settled through ERRORED with that same `e`. -/
theorem batch_dispatch_join (regs : List Registration) (batch : List ActionValue)
    (s : EngineState) (prog : List Cmd) (ids : List Nat) (e : Err) :
    ((dispatchBatch regs batch s).2 = idsFrom s.nextOcc batch.length ∧
     (dispatchBatch regs batch s).1.nextOcc = s.nextOcc + batch.length) ∧
    ((batchOutcome (runProg regs prog).log ids).isSettled = true ↔
      ((∀ i ∈ ids, Phase.completed ∈ occPhases (runProg regs prog).log i) ∨
       (∃ i ∈ ids, Phase.errored ∈ occPhases (runProg regs prog).log i))) ∧
    (batchOutcome (runProg regs prog).log ids = DispatchOutcome.resolved →
      ∀ i ∈ ids, Phase.completed ∈ occPhases (runProg regs prog).log i) ∧
    (batchOutcome (runProg regs prog).log ids = DispatchOutcome.rejected e →
      ∃ i ∈ ids, ∃ a, occEvents (runProg regs prog).log i =
        mkEv i a .dispatched none :: settledPair i a (some e)) := by
  have hinv := runProg_engineInv regs prog
  refine ⟨?_, batchOutcome_settle_iff_inv _ hinv ids,
    batchOutcome_resolved_all_completed _ hinv ids,
    batchOutcome_rejected_shape _ hinv ids e⟩
  exact dispatchBatch_core regs batch s []
